import Mathlib

set_option autoImplicit false

/-!
Shallow embedding of the `als_parser_rs` repository.

The repository contains two Rust source files implementing the same design:
`src/@napi-rs/parser/src/lib.rs` (the napi binding, embedded here in
namespace `Napi`) and `src/src/main.rs` (the CLI, embedded in namespace
`Cli`).  Both define the same data model (`Project`, `Track`, `Branch`),
a streaming XML-event parser `get_project_from_als`, and a differ
`Project::diff` / `Track::diff_content`.

Modelling conventions:
- XML byte strings (tag names, attribute values) are modelled as `String`;
  `String::from_utf8_lossy` is the identity at this abstraction level.
- quick_xml events are modelled by `XmlEvent`; the gzip/IO transport and
  event kinds the code ignores (`Event::Text`, ...) are out of scope, so
  `get_project_from_als` consumes a `List XmlEvent` instead of a file path.
- `e.try_get_attribute(k)` returns the first attribute named `k`; it is
  modelled by `lookupEntry k attrs` over the attribute association list.
- Rust's `HashMap` built by `collect` over `(id, track)` pairs is modelled
  by an association list built with last-wins insertion (`buildMap`);
  iteration order of a `HashMap` is unspecified, the model iterates in
  first-insertion order.  Claims proved about the differ are insensitive
  to that choice (emptiness / membership / concrete single-entry runs).
- Rust `Vec` push/pop at the back: `branch_stack` is modelled with the top
  of the stack at the HEAD of the list (push = cons, `last_mut` = head);
  the sibling lists themselves keep document order (push = append at the
  end, `last_mut` = `modifyLast`).
- structural equality `==`/`!=` (derived `PartialEq`) on the recursive
  `Branch` type is modelled by the boolean functions `Branch.beq` /
  `lbeq` / `obeq`, proved equivalent to propositional equality below.
-/

/-- A node in a device/instrument chain.  Mirrors `struct Branch` (both
files): `branch_type`, `effective_name`, optional `user_name`, optional
recursively nested `branches`.  A Lean `structure` cannot be recursive,
so `Branch` is a single-constructor inductive with accessor functions. -/
inductive Branch where
  | mk (branch_type : String) (effective_name : String) (user_name : Option String)
      (branches : Option (List Branch))

def Branch.branch_type : Branch → String
  | .mk t _ _ _ => t

def Branch.effective_name : Branch → String
  | .mk _ e _ _ => e

def Branch.user_name : Branch → Option String
  | .mk _ _ u _ => u

def Branch.branches : Branch → Option (List Branch)
  | .mk _ _ _ b => b

/-- `Branch::new` (both files): kind from the tag name, empty effective
name, no user name, no nested branches. -/
def Branch.new (branch_type : String) : Branch :=
  .mk branch_type "" none none

/-- `Branch::set_effective_name`. -/
def Branch.set_effective_name : Branch → String → Branch
  | .mk t _ u b, v => .mk t v u b

/-- `Branch::set_user_name`: always wraps the value in `Some`. -/
def Branch.set_user_name : Branch → String → Branch
  | .mk t e _ b, v => .mk t e (some v) b

/-- Rust field assignment `branch.branches = ...`. -/
def Branch.set_branches : Branch → Option (List Branch) → Branch
  | .mk t e u _, br => .mk t e u br

mutual

/-- Structural equality on `Branch`, modelling the derived `PartialEq`. -/
def Branch.beq : Branch → Branch → Bool
  | .mk t1 e1 u1 b1, .mk t2 e2 u2 b2 =>
      decide (t1 = t2) && decide (e1 = e2) && decide (u1 = u2) && obeq b1 b2

/-- Structural equality on `Option (List Branch)`. -/
def obeq : Option (List Branch) → Option (List Branch) → Bool
  | none, none => true
  | some l1, some l2 => lbeq l1 l2
  | _, _ => false

/-- Structural equality on `List Branch`. -/
def lbeq : List Branch → List Branch → Bool
  | [], [] => true
  | a :: as1, b :: bs1 => Branch.beq a b && lbeq as1 bs1
  | _, _ => false

end

/-- A top-level signal path.  Mirrors `struct Track` (both files). -/
structure Track where
  track_type : String
  id : String
  effective_name : String
  user_name : Option String
  branches : Option (List Branch)

/-- `Track::new` (both files): type and id from the element, empty
effective name, no user name, no branches. -/
def Track.new (track_type id : String) : Track :=
  ⟨track_type, id, "", none, none⟩

/-- `Track::set_effective_name`. -/
def Track.set_effective_name (t : Track) (v : String) : Track :=
  { t with effective_name := v }

/-- `Track::set_user_name`: always wraps the value in `Some`. -/
def Track.set_user_name (t : Track) (v : String) : Track :=
  { t with user_name := some v }

/-- Structural equality on `Track`, modelling the derived `PartialEq`. -/
def Track.beq (a b : Track) : Bool :=
  decide (a.track_type = b.track_type) && decide (a.id = b.id) &&
  decide (a.effective_name = b.effective_name) && decide (a.user_name = b.user_name) &&
  obeq a.branches b.branches

/-- The root aggregate.  Mirrors `struct Project` (both files). -/
structure Project where
  tracks : List Track

/-- First entry with the given key in an association list.  Models both
quick_xml `try_get_attribute` (over attributes) and `HashMap::get`
(over the id-to-track mapping, whose keys are unique). -/
def lookupEntry {β : Type} (k : String) : List (String × β) → Option β
  | [] => none
  | (k2, v) :: rest => if k2 = k then some v else lookupEntry k rest

/-- `HashMap::contains_key`. -/
def hasKey {β : Type} (k : String) (m : List (String × β)) : Bool :=
  match lookupEntry k m with
  | some _ => true
  | none => false

/-- `HashMap::insert` semantics: overwrite the value if the key is
present (keeping the key's position), otherwise append a new entry. -/
def insertEntry (m : List (String × Track)) (k : String) (v : Track) : List (String × Track) :=
  if hasKey k m then m.map (fun p => if p.1 = k then (k, v) else p)
  else m ++ [(k, v)]

/-- The id-to-track mapping both differs build:
`tracks.iter().map(|t| (&t.id, t)).collect::<HashMap<_,_>>()`.
Later tracks with a duplicate id overwrite earlier ones. -/
def buildMap (ts : List Track) : List (String × Track) :=
  ts.foldl (fun m t => insertEntry m t.id t) []

/-- Body of the removed-tracks loop, identical in both files:
`if !new_map.contains_key(id) { changes.push("Removed track: ...") }`. -/
def removedStep (new_map : List (String × Track)) (changes : List String)
    (e : String × Track) : List String :=
  if hasKey e.1 new_map then changes
  else changes ++ ["Removed track: " ++ e.2.effective_name]

/-- The three quick_xml event shapes the parsers handle: `Event::Start`,
`Event::Empty` (self-closing, with attributes) and `Event::End`.
`Event::Eof` is the end of the event list; all other event kinds fall
into the parsers' wildcard arms and leave the state unchanged. -/
inductive XmlEvent where
  | start (name : String) (attrs : List (String × String))
  | empty (name : String) (attrs : List (String × String))
  | close (name : String)

/-- The mutable state `get_project_from_als` threads through the event
loop (both files): the project's accumulated `tracks`, the at-most-one
open `cur_track`, the `branch_stack` of in-progress sibling lists (top
of stack at the head), and the `in_name_block` gate. -/
structure ParserState where
  tracks : List Track
  cur_track : Option Track
  branch_stack : List (List Branch)
  in_name_block : Bool

def initState : ParserState :=
  ⟨[], none, [], false⟩

/-- Apply `f` to the last element of a list (Rust `last_mut`); the empty
list is returned unchanged (the `if let Some(x) = v.last_mut()` guard
fails and nothing happens). -/
def modifyLast {α : Type} (f : α → α) : List α → List α
  | [] => []
  | [a] => [f a]
  | a :: b :: rest => a :: modifyLast f (b :: rest)

/-- `Event::Start` handling, identical in both files: a track tag with an
`Id` attribute (re)opens `cur_track`; `Branches` pushes an empty sibling
list; a branch tag appends a new `Branch` to the top sibling list when
the stack is non-empty; `Name` raises the gate. -/
def handleStart (s : ParserState) (name : String) (attrs : List (String × String)) : ParserState :=
  if name = "AudioTrack" ∨ name = "MidiTrack" ∨ name = "ReturnTrack" then
    match lookupEntry "Id" attrs with
    | some idv => { s with cur_track := some (Track.new name idv) }
    | none => s
  else if name = "Branches" then
    { s with branch_stack := [] :: s.branch_stack }
  else if name = "DrumBranch" ∨ name = "InstrumentBranch" ∨ name = "AudioEffectBranch" then
    match s.branch_stack with
    | top :: rest => { s with branch_stack := (top ++ [Branch.new name]) :: rest }
    | [] => s
  else if name = "Name" then
    { s with in_name_block := true }
  else s

/-- `Event::End` handling, identical in both files: a track tag moves
`cur_track` (when present) to the end of the project's track list;
`Branches` pops the top sibling list and attaches it to the last branch
of the new top list when one exists, else to `cur_track` when present,
else discards it; `Name` lowers the gate. -/
def handleEnd (s : ParserState) (name : String) : ParserState :=
  if name = "AudioTrack" ∨ name = "MidiTrack" ∨ name = "ReturnTrack" then
    match s.cur_track with
    | some t => { s with tracks := s.tracks ++ [t], cur_track := none }
    | none => s
  else if name = "Branches" then
    match s.branch_stack with
    | deepest :: rest =>
      match rest with
      | top :: rest2 =>
          { s with branch_stack := modifyLast (fun b => b.set_branches (some deepest)) top :: rest2 }
      | [] =>
        match s.cur_track with
        | some t => { s with cur_track := some { t with branches := some deepest }, branch_stack := [] }
        | none => { s with branch_stack := [] }
    | [] => s
  else if name = "Name" then
    { s with in_name_block := false }
  else s

namespace Napi

/-- Name/value application to a `Branch` in the `Event::Empty` arm of
`lib.rs`: `EffectiveName` sets the effective name; ANY other tag name
sets the user name (the tag is never compared against `UserName`, and
an empty value is still recorded as `Some("")`). -/
def applyName (name v : String) (b : Branch) : Branch :=
  if name = "EffectiveName" then b.set_effective_name v else b.set_user_name v

/-- Same dispatch for a `Track` target. -/
def applyNameTrack (name v : String) (t : Track) : Track :=
  if name = "EffectiveName" then t.set_effective_name v else t.set_user_name v

/-- `Event::Empty` handling in `lib.rs`: gate first, then the `Value`
attribute; target is the last branch of the top sibling list when the
stack is non-empty (nothing happens when that top list is empty), else
`cur_track` when present. -/
def handleEmpty (s : ParserState) (name : String) (attrs : List (String × String)) : ParserState :=
  if s.in_name_block then
    match lookupEntry "Value" attrs with
    | some v =>
      match s.branch_stack with
      | top :: rest => { s with branch_stack := modifyLast (applyName name v) top :: rest }
      | [] =>
        match s.cur_track with
        | some t => { s with cur_track := some (applyNameTrack name v t) }
        | none => s
    | none => s
  else s

/-- One iteration of the event loop of `lib.rs`'s `get_project_from_als`. -/
def step (s : ParserState) (ev : XmlEvent) : ParserState :=
  match ev with
  | .start name attrs => handleStart s name attrs
  | .empty name attrs => handleEmpty s name attrs
  | .close name => handleEnd s name

/-- `lib.rs` `get_project_from_als`, over an event list. -/
def get_project_from_als (events : List XmlEvent) : Project :=
  { tracks := (events.foldl step initState).tracks }

/-- `lib.rs` `diff_branch_lists`: coarse comparison of two optional
branch lists as opaque aggregates. -/
def diff_branch_lists (new old : Option (List Branch)) (parent_name : String) : List String :=
  match new, old with
  | some n_list, some o_list =>
      if lbeq n_list o_list then []
      else ["Track " ++ parent_name ++ ": Modified internal Rack devices"]
  | some _, none => ["Track " ++ parent_name ++ ": Added new Rack devices"]
  | none, some _ => ["Track " ++ parent_name ++ ": Removed all Rack devices"]
  | none, none => []

/-- The name-field part of `lib.rs` `Track::diff_content`: rename first
(user names, absent rendered as `None`), else instrument swap. -/
def name_messages (self old : Track) : List String :=
  if self.user_name ≠ old.user_name then
    ["Track " ++ self.effective_name ++ ": Renamed from \x27" ++ old.user_name.getD "None"
      ++ "\x27 to \x27" ++ self.user_name.getD "None" ++ "\x27"]
  else if self.effective_name ≠ old.effective_name then
    ["Track " ++ self.id ++ ": Swapped instrument to " ++ self.effective_name]
  else []

/-- `lib.rs` `Track::diff_content`: the name messages followed by the
unconditional `diff_branch_lists` call. -/
def Track.diff_content (self old : Track) : List String :=
  name_messages self old ++ diff_branch_lists self.branches old.branches self.effective_name

/-- Body of the added-or-modified loop of `lib.rs`: id in both maps and
deeply unequal pushes the content diff; id only in the new map pushes
`Added new track`. -/
def addedStep (old_map : List (String × Track)) (changes : List String)
    (e : String × Track) : List String :=
  match lookupEntry e.1 old_map with
  | some old_track =>
      if Track.beq e.2 old_track then changes
      else changes ++ Track.diff_content e.2 old_track
  | none => changes ++ ["Added new track: " ++ e.2.effective_name]

/-- `lib.rs` `Project::diff` (`self` is the new snapshot): the
removed-tracks loop runs first, then the added-or-modified loop pushes
onto the same `changes` vector. -/
def Project.diff (self old : Project) : List String :=
  let old_map := buildMap old.tracks
  let new_map := buildMap self.tracks
  new_map.foldl (addedStep old_map) (old_map.foldl (removedStep new_map) [])

end Napi

namespace Cli

/-- Name/value application to a `Branch` in the `Event::Empty` arm of
`main.rs`: `EffectiveName` sets the effective name; otherwise (the tag
is `UserName` here, by the surrounding match) a NON-EMPTY value sets the
user name and an empty value is skipped. -/
def applyName (name v : String) (b : Branch) : Branch :=
  if name = "EffectiveName" then b.set_effective_name v
  else if v ≠ "" then b.set_user_name v
  else b

/-- Same dispatch for a `Track` target. -/
def applyNameTrack (name v : String) (t : Track) : Track :=
  if name = "EffectiveName" then t.set_effective_name v
  else if v ≠ "" then t.set_user_name v
  else t

/-- `Event::Empty` handling in `main.rs`: only `EffectiveName` /
`UserName` tags are considered, gated on the `Value` attribute AND
`in_name_block`; target selection as in `lib.rs`. -/
def handleEmpty (s : ParserState) (name : String) (attrs : List (String × String)) : ParserState :=
  if name = "EffectiveName" ∨ name = "UserName" then
    match lookupEntry "Value" attrs, s.in_name_block with
    | some v, true =>
      match s.branch_stack with
      | top :: rest => { s with branch_stack := modifyLast (applyName name v) top :: rest }
      | [] =>
        match s.cur_track with
        | some t => { s with cur_track := some (applyNameTrack name v t) }
        | none => s
    | _, _ => s
  else s

/-- One iteration of the event loop of `main.rs`'s `get_project_from_als`. -/
def step (s : ParserState) (ev : XmlEvent) : ParserState :=
  match ev with
  | .start name attrs => handleStart s name attrs
  | .empty name attrs => handleEmpty s name attrs
  | .close name => handleEnd s name

/-- `main.rs` `get_project_from_als`, over an event list. -/
def get_project_from_als (events : List XmlEvent) : Project :=
  { tracks := (events.foldl step initState).tracks }

/-- The name-field part of `main.rs` `Track::diff_content`: user-name
change first, else instrument change.  `main.rs` has no branch
comparison (`diff_branches` is commented out), so `diff_content` is
exactly these messages. -/
def name_messages (self old : Track) : List String :=
  if self.user_name ≠ old.user_name then
    ["Track " ++ self.id ++ ": User name changed from \x27" ++ old.user_name.getD "None"
      ++ "\x27 to \x27" ++ self.user_name.getD "None" ++ "\x27"]
  else if self.effective_name ≠ old.effective_name then
    ["Track " ++ self.id ++ ": Changed instrument " ++ old.effective_name ++ " to "
      ++ self.effective_name]
  else []

/-- `main.rs` `Track::diff_content` (the branch diff is commented out in
the source, so only the name messages are produced). -/
def Track.diff_content (self old : Track) : List String :=
  name_messages self old

/-- Body of the second loop of `main.rs`.  Note the misplaced
else-branch in the source: `Added new track` is pushed when an id is
present in BOTH maps with EQUAL content, and an id present only in the
new map produces nothing. -/
def addedStep (old_map : List (String × Track)) (changes : List String)
    (e : String × Track) : List String :=
  match lookupEntry e.1 old_map with
  | some old_track =>
      if Track.beq e.2 old_track then changes ++ ["Added new track: " ++ e.2.effective_name]
      else changes ++ Track.diff_content e.2 old_track
  | none => changes

/-- `main.rs` `Project::diff` (`self` is the new snapshot): the
removed-tracks loop runs first, then the second loop pushes onto the
same `changes` vector. -/
def Project.diff (self old : Project) : List String :=
  let old_map := buildMap old.tracks
  let new_map := buildMap self.tracks
  new_map.foldl (addedStep old_map) (old_map.foldl (removedStep new_map) [])

end Cli

/-! Helpers used only in proofs: the messages a single loop iteration
of each differ appends to the `changes` vector. -/

/-- Messages one `removedStep` iteration pushes. -/
def removedMsgs (new_map : List (String × Track)) (e : String × Track) : List String :=
  if hasKey e.1 new_map then [] else ["Removed track: " ++ e.2.effective_name]

/-- Messages one `Napi.addedStep` iteration pushes. -/
def Napi.addedMsgs (old_map : List (String × Track)) (e : String × Track) : List String :=
  match lookupEntry e.1 old_map with
  | some old_track =>
      if Track.beq e.2 old_track then [] else Napi.Track.diff_content e.2 old_track
  | none => ["Added new track: " ++ e.2.effective_name]

/-- Messages one `Cli.addedStep` iteration pushes. -/
def Cli.addedMsgs (old_map : List (String × Track)) (e : String × Track) : List String :=
  match lookupEntry e.1 old_map with
  | some old_track =>
      if Track.beq e.2 old_track then ["Added new track: " ++ e.2.effective_name]
      else Cli.Track.diff_content e.2 old_track
  | none => []

/-! Concrete fixtures used by closed theorems and witnesses. -/

/-- A plain track `id="1"`, `effective_name="Piano"`, no user name. -/
def tPiano : Track := ⟨"MidiTrack", "1", "Piano", none, none⟩

/-- The same track with `user_name=Some("Lead")`. -/
def tLead : Track := ⟨"MidiTrack", "1", "Piano", some "Lead", none⟩

/-- A project holding only `tPiano`. -/
def pPiano : Project := ⟨[tPiano]⟩

/-- The empty project. -/
def pEmpty : Project := ⟨[]⟩

/-- Two distinct tracks sharing id `"1"`. -/
def tA : Track := ⟨"MidiTrack", "1", "A", none, none⟩

/-- Second track with the duplicate id. -/
def tB : Track := ⟨"MidiTrack", "1", "B", none, none⟩

/-- Track `id="2"` carrying one branch. -/
def tBr : Track := ⟨"MidiTrack", "2", "Piano", none, some [Branch.new "InstrumentBranch"]⟩

/-- Track `id="2"` with `branches=None`. -/
def tNoBr : Track := ⟨"MidiTrack", "2", "Piano", none, none⟩

/-- A parser state with the gate raised, an open track, and a non-empty
`branch_stack` whose top sibling list is empty. -/
def sEmptyTop : ParserState := ⟨[], some tPiano, [[]], true⟩

/-- A self-closing `UserName` event carrying `Value="X"`. -/
def evUserX : XmlEvent := .empty "UserName" [("Value", "X")]

/-- Event stream: one `MidiTrack` whose `Name` block carries an empty
`UserName` value and `EffectiveName="Piano"`. -/
def evsEmptyUser : List XmlEvent :=
  [.start "MidiTrack" [("Id", "7")], .start "Name" [],
   .empty "UserName" [("Value", "")], .empty "EffectiveName" [("Value", "Piano")],
   .close "Name", .close "MidiTrack"]

/-- Event stream: one track containing a branch group nested three
levels deep (each level one `InstrumentBranch`). -/
def evsNested : List XmlEvent :=
  [.start "AudioTrack" [("Id", "1")],
   .start "Branches" [], .start "InstrumentBranch" [],
   .start "Branches" [], .start "InstrumentBranch" [],
   .start "Branches" [], .start "InstrumentBranch" [], .close "InstrumentBranch",
   .close "Branches", .close "InstrumentBranch",
   .close "Branches", .close "InstrumentBranch",
   .close "Branches",
   .close "AudioTrack"]

/-- The nested-branch tree `evsNested` must produce. -/
def nestedTrack : Track :=
  ⟨"AudioTrack", "1", "", none,
    some [Branch.mk "InstrumentBranch" "" none
      (some [Branch.mk "InstrumentBranch" "" none
        (some [Branch.mk "InstrumentBranch" "" none none])])]⟩

/-- Event stream: a `MidiTrack` opens while an `AudioTrack` is still
open; only the `MidiTrack` is ever closed into the project. -/
def evsNestedTracks : List XmlEvent :=
  [.start "AudioTrack" [("Id", "1")], .start "MidiTrack" [("Id", "2")],
   .close "MidiTrack", .close "AudioTrack"]

/-! Lawfulness of the boolean structural equalities. -/

theorem lbeq_iff_of (l1 : List Branch)
    (h : ∀ x ∈ l1, ∀ b, Branch.beq x b = true ↔ x = b) :
    ∀ l2, lbeq l1 l2 = true ↔ l1 = l2 := by
  induction l1 with
  | nil => intro l2; cases l2 <;> simp [lbeq]
  | cons a as1 ih =>
    intro l2
    cases l2 with
    | nil => simp [lbeq]
    | cons b bs1 =>
      simp only [lbeq, Bool.and_eq_true, List.cons.injEq]
      rw [h a (by simp) b, ih (fun x hx b2 => h x (by simp [hx]) b2) bs1]

theorem branch_beq_iff_aux :
    ∀ (n : Nat) (a : Branch), sizeOf a ≤ n → ∀ b, (Branch.beq a b = true ↔ a = b) := by
  intro n
  induction n with
  | zero =>
    intro a ha
    cases a with
    | mk t e u br => simp at ha
  | succ n ih =>
    intro a ha b
    cases a with
    | mk t1 e1 u1 br1 =>
      cases b with
      | mk t2 e2 u2 br2 =>
        have hobeq : obeq br1 br2 = true ↔ br1 = br2 := by
          cases br1 with
          | none => cases br2 <;> simp [obeq]
          | some l1 =>
            cases br2 with
            | none => simp [obeq]
            | some l2 =>
              simp only [obeq, Option.some.injEq]
              refine lbeq_iff_of l1 (fun x hx b2 => ih x ?_ b2) l2
              have h1 : sizeOf x < sizeOf l1 := List.sizeOf_lt_of_mem hx
              have h2 : sizeOf (Branch.mk t1 e1 u1 (some l1)) ≤ n + 1 := ha
              simp at h2
              omega
        simp only [Branch.beq, Bool.and_eq_true, decide_eq_true_eq, Branch.mk.injEq]
        rw [hobeq]
        tauto

theorem branch_beq_iff (a b : Branch) : Branch.beq a b = true ↔ a = b :=
  branch_beq_iff_aux (sizeOf a) a (le_refl _) b

theorem lbeq_iff (l1 l2 : List Branch) : lbeq l1 l2 = true ↔ l1 = l2 :=
  lbeq_iff_of l1 (fun x _ b => branch_beq_iff x b) l2

theorem obeq_iff (o1 o2 : Option (List Branch)) : obeq o1 o2 = true ↔ o1 = o2 := by
  cases o1 with
  | none => cases o2 <;> simp [obeq]
  | some l1 =>
    cases o2 with
    | none => simp [obeq]
    | some l2 => simp only [obeq, Option.some.injEq]; exact lbeq_iff l1 l2

theorem track_beq_iff (a b : Track) : Track.beq a b = true ↔ a = b := by
  cases a with
  | mk t1 i1 e1 u1 b1 =>
    cases b with
    | mk t2 i2 e2 u2 b2 =>
      simp only [Track.beq, Bool.and_eq_true, decide_eq_true_eq, Track.mk.injEq]
      rw [obeq_iff]
      tauto

theorem Track.beq_refl (a : Track) : Track.beq a a = true :=
  (track_beq_iff a a).mpr rfl

theorem lbeq_refl (l : List Branch) : lbeq l l = true :=
  (lbeq_iff l l).mpr rfl

/-! Fold lemmas for the push-only accumulation loops of the differs. -/

theorem foldl_id_of {α β : Type} (f : β → α → β) :
    ∀ (l : List α) (init : β), (∀ e ∈ l, ∀ ch, f ch e = ch) → l.foldl f init = init := by
  intro l
  induction l with
  | nil => intro init _; rfl
  | cons e l ih =>
    intro init h
    simp only [List.foldl_cons]
    rw [h e (by simp) init]
    exact ih init (fun x hx ch => h x (by simp [hx]) ch)

theorem foldl_mono {α β : Type} (f : List β → α → List β)
    (hf : ∀ ch e, ∃ add, f ch e = ch ++ add) :
    ∀ (l : List α) (init : List β) (x : β), x ∈ init → x ∈ l.foldl f init := by
  intro l
  induction l with
  | nil => intro init x hx; simpa using hx
  | cons e l ih =>
    intro init x hx
    simp only [List.foldl_cons]
    refine ih (f init e) x ?_
    obtain ⟨add, hadd⟩ := hf init e
    rw [hadd]
    exact List.mem_append_left add hx

theorem foldl_mem_of_elem {α β : Type} (f : List β → α → List β) (g : α → List β)
    (hf : ∀ ch e, f ch e = ch ++ g e) :
    ∀ (l : List α) (init : List β) (e : α), e ∈ l → ∀ x ∈ g e, x ∈ l.foldl f init := by
  intro l
  induction l with
  | nil => intro init e he; cases he
  | cons e2 l ih =>
    intro init e he x hx
    simp only [List.foldl_cons]
    rcases List.mem_cons.mp he with heq | hmem
    · subst heq
      refine foldl_mono f (fun ch e3 => ⟨g e3, hf ch e3⟩) l (f init e) x ?_
      rw [hf init e]
      exact List.mem_append_right init hx
    · exact ih (f init e2) e hmem x hx

/-! Association-list lemmas for the id-to-track mapping. -/

theorem lookupEntry_mem {β : Type} (k : String) (v : β) :
    ∀ m : List (String × β), lookupEntry k m = some v → (k, v) ∈ m := by
  intro m
  induction m with
  | nil => intro h; cases h
  | cons p rest ih =>
    intro h
    obtain ⟨k2, v2⟩ := p
    by_cases hk : k2 = k
    · simp only [lookupEntry, if_pos hk] at h
      cases h
      subst hk
      exact List.mem_cons_self _ _
    · simp only [lookupEntry, if_neg hk] at h
      exact List.mem_cons_of_mem _ (ih h)

theorem hasKey_of_mem {β : Type} (k : String) (v : β) :
    ∀ m : List (String × β), (k, v) ∈ m → hasKey k m = true := by
  intro m
  induction m with
  | nil => intro h; cases h
  | cons p rest ih =>
    intro h
    obtain ⟨k2, v2⟩ := p
    by_cases hk : k2 = k
    · simp [hasKey, lookupEntry, if_pos hk]
    · rcases List.mem_cons.mp h with heq | hmem
      · cases heq; exact absurd rfl hk
      · have := ih hmem
        simpa [hasKey, lookupEntry, if_neg hk] using this

theorem lookupEntry_of_mem_nodup {β : Type} (k : String) (v : β) :
    ∀ m : List (String × β), (m.map Prod.fst).Nodup → (k, v) ∈ m →
      lookupEntry k m = some v := by
  intro m
  induction m with
  | nil => intro _ h; cases h
  | cons p rest ih =>
    intro hnd h
    obtain ⟨k2, v2⟩ := p
    simp only [List.map_cons, List.nodup_cons] at hnd
    rcases List.mem_cons.mp h with heq | hmem
    · cases heq
      simp [lookupEntry]
    · have hkmem : k ∈ rest.map Prod.fst := List.mem_map.mpr ⟨(k, v), hmem, rfl⟩
      have hk : k2 ≠ k := fun h2 => hnd.1 (h2 ▸ hkmem)
      simp only [lookupEntry, if_neg hk]
      exact ih hnd.2 hmem

/-! Keys of the id-to-track mapping are unique. -/

theorem keys_replace (m : List (String × Track)) (k : String) (v : Track) :
    (m.map (fun p => if p.1 = k then (k, v) else p)).map Prod.fst = m.map Prod.fst := by
  induction m with
  | nil => rfl
  | cons p rest ih =>
    simp only [List.map_cons, ih]
    congr 1
    by_cases h : p.1 = k
    · rw [if_pos h]; exact h.symm
    · rw [if_neg h]

theorem nodup_keys_insertEntry (m : List (String × Track)) (k : String) (v : Track)
    (h : (m.map Prod.fst).Nodup) : ((insertEntry m k v).map Prod.fst).Nodup := by
  by_cases hk : hasKey k m
  · simpa only [insertEntry, if_pos hk, keys_replace] using h
  · simp only [insertEntry, if_neg hk, List.map_append, List.map_cons, List.map_nil]
    have hknot : k ∉ m.map Prod.fst := by
      intro hmem
      obtain ⟨p, hp, hfst⟩ := List.mem_map.mp hmem
      have hpm : (p.1, p.2) ∈ m := by rw [Prod.mk.eta]; exact hp
      exact hk (hfst ▸ hasKey_of_mem p.1 p.2 m hpm)
    refine List.Nodup.append h (List.nodup_singleton k) ?_
    intro a ha hb
    rw [List.mem_singleton] at hb
    subst hb
    exact hknot ha

theorem buildMap_aux_nodup (ts : List Track) :
    ∀ m : List (String × Track), (m.map Prod.fst).Nodup →
      ((ts.foldl (fun m t => insertEntry m t.id t) m).map Prod.fst).Nodup := by
  induction ts with
  | nil => intro m h; exact h
  | cons t ts ih => intro m h; exact ih _ (nodup_keys_insertEntry m t.id t h)

theorem buildMap_nodup (ts : List Track) : ((buildMap ts).map Prod.fst).Nodup :=
  buildMap_aux_nodup ts [] (by simp)

/-! Rewriting the last element of a sibling list. -/

theorem modifyLast_concat {α : Type} (f : α → α) (pre : List α) (x : α) :
    modifyLast f (pre ++ [x]) = pre ++ [f x] := by
  induction pre with
  | nil => rfl
  | cons a l ih =>
    cases l with
    | nil => rfl
    | cons b l2 =>
      show a :: modifyLast f ((b :: l2) ++ [x]) = a :: ((b :: l2) ++ [f x])
      rw [ih]

/-! Each differ loop iteration only appends to the changes vector. -/

theorem removedStep_eq (new_map : List (String × Track)) (ch : List String)
    (e : String × Track) : removedStep new_map ch e = ch ++ removedMsgs new_map e := by
  unfold removedStep removedMsgs
  by_cases h : hasKey e.1 new_map <;> simp [h]

theorem napi_addedStep_eq (old_map : List (String × Track)) (ch : List String)
    (e : String × Track) : Napi.addedStep old_map ch e = ch ++ Napi.addedMsgs old_map e := by
  unfold Napi.addedStep Napi.addedMsgs
  rcases h : lookupEntry e.1 old_map with _ | o
  · simp
  · by_cases hb : Track.beq e.2 o <;> simp [hb]

theorem cli_addedStep_eq (old_map : List (String × Track)) (ch : List String)
    (e : String × Track) : Cli.addedStep old_map ch e = ch ++ Cli.addedMsgs old_map e := by
  unfold Cli.addedStep Cli.addedMsgs
  rcases h : lookupEntry e.1 old_map with _ | o
  · simp
  · by_cases hb : Track.beq e.2 o <;> simp [hb]

theorem hasKey_false_of_lookup_none {β : Type} (k : String) (m : List (String × β))
    (h : lookupEntry k m = none) : hasKey k m = false := by
  unfold hasKey
  rw [h]

/-- C1: diffing a `Project` against itself yields an empty change list.
The napi differ (`lib.rs`) satisfies this for every project.  The CLI
differ (`main.rs`) violates it: its misplaced else-branch — the very
placement `lib.rs` annotates with "This was misplaced in your snippet -
fixed!" — pushes `Added new track` for every id present in both maps
with equal content, so the self-diff of the one-track project `pPiano`
is `["Added new track: Piano"]` instead of `[]`. -/
theorem diff_self_napi_empty_cli_not :
    (∀ p : Project, Napi.Project.diff p p = []) ∧
    Cli.Project.diff pPiano pPiano = ["Added new track: Piano"] := by
  constructor
  · intro p
    show (buildMap p.tracks).foldl (Napi.addedStep (buildMap p.tracks))
      ((buildMap p.tracks).foldl (removedStep (buildMap p.tracks)) []) = []
    have hnd := buildMap_nodup p.tracks
    have h1 : ∀ e ∈ buildMap p.tracks, ∀ ch : List String,
        removedStep (buildMap p.tracks) ch e = ch := by
      intro e he ch
      have hpm : (e.1, e.2) ∈ buildMap p.tracks := by rw [Prod.mk.eta]; exact he
      have hk : hasKey e.1 (buildMap p.tracks) = true := hasKey_of_mem e.1 e.2 _ hpm
      simp [removedStep, hk]
    have h2 : ∀ e ∈ buildMap p.tracks, ∀ ch : List String,
        Napi.addedStep (buildMap p.tracks) ch e = ch := by
      intro e he ch
      have hpm : (e.1, e.2) ∈ buildMap p.tracks := by rw [Prod.mk.eta]; exact he
      have hlook : lookupEntry e.1 (buildMap p.tracks) = some e.2 :=
        lookupEntry_of_mem_nodup e.1 e.2 _ hnd hpm
      simp [Napi.addedStep, hlook, Track.beq_refl]
    rw [foldl_id_of (removedStep (buildMap p.tracks)) (buildMap p.tracks) [] h1,
      foldl_id_of (Napi.addedStep (buildMap p.tracks)) (buildMap p.tracks) [] h2]
  · rfl

/-- C2: in the napi differ, an id present in the new map and absent from
the old map contributes an `Added new track` message to diff(old,new)
and a `Removed track` message to the swapped diff(new,old).  The CLI
differ violates the added half at the failing input (old empty, new one
track): it emits nothing at all. -/
theorem diff_added_removed :
    (∀ (pnew pold : Project) (i : String) (t : Track),
        lookupEntry i (buildMap pnew.tracks) = some t →
        lookupEntry i (buildMap pold.tracks) = none →
        ("Added new track: " ++ t.effective_name) ∈ Napi.Project.diff pnew pold ∧
        ("Removed track: " ++ t.effective_name) ∈ Napi.Project.diff pold pnew) ∧
    Cli.Project.diff pPiano pEmpty = [] := by
  constructor
  · intro pnew pold i t hnew hold
    have hmem : (i, t) ∈ buildMap pnew.tracks := lookupEntry_mem i t _ hnew
    constructor
    · show ("Added new track: " ++ t.effective_name) ∈
        (buildMap pnew.tracks).foldl (Napi.addedStep (buildMap pold.tracks))
          ((buildMap pold.tracks).foldl (removedStep (buildMap pnew.tracks)) [])
      refine foldl_mem_of_elem _ (Napi.addedMsgs (buildMap pold.tracks))
        (napi_addedStep_eq _) (buildMap pnew.tracks) _ (i, t) hmem _ ?_
      simp [Napi.addedMsgs, hold]
    · show ("Removed track: " ++ t.effective_name) ∈
        (buildMap pold.tracks).foldl (Napi.addedStep (buildMap pnew.tracks))
          ((buildMap pnew.tracks).foldl (removedStep (buildMap pold.tracks)) [])
      refine foldl_mono _ (fun ch e => ⟨Napi.addedMsgs (buildMap pnew.tracks) e,
        napi_addedStep_eq _ ch e⟩) _ _ _ ?_
      refine foldl_mem_of_elem _ (removedMsgs (buildMap pold.tracks))
        (removedStep_eq _) (buildMap pnew.tracks) _ (i, t) hmem _ ?_
      simp [removedMsgs, hasKey_false_of_lookup_none i _ hold]
  · rfl

/-- C2 witness: at old = empty, new = one Piano track with id 1, the
napi diff contains the added message one way and the removed message the
other way. -/
theorem diff_added_removed_witness :
    ("Added new track: " ++ tPiano.effective_name) ∈ Napi.Project.diff pPiano pEmpty ∧
    ("Removed track: " ++ tPiano.effective_name) ∈ Napi.Project.diff pEmpty pPiano :=
  diff_added_removed.1 pPiano pEmpty "1" tPiano rfl rfl

/-- C3: two tracks sharing id 1 in the new snapshot are silently
collapsed by the id-to-track mapping (last one wins), and the diff
against an empty old snapshot reports only the surviving track — no
duplicate-id precondition violation is surfaced, and track `tA` is
hidden from the diff. -/
theorem duplicate_id_silent_overwrite :
    buildMap [tA, tB] = [("1", tB)] ∧
    Napi.Project.diff ⟨[tA, tB]⟩ pEmpty = ["Added new track: B"] ∧
    Cli.Project.diff ⟨[tA, tB]⟩ pEmpty = [] :=
  ⟨rfl, rfl, rfl⟩

/-- C4 counterexample: in the state `sEmptyTop` (gate up, open track,
`branch_stack = [[]]`, i.e. non-empty stack with empty top list) a
self-closing `UserName Value="X"` event is dropped by BOTH parsers: the
state is unchanged and `current_track`'s user name does not become
`Some "X")` as the claim requires. -/
theorem name_event_empty_top_counterexample :
    Cli.step sEmptyTop evUserX = sEmptyTop ∧
    Napi.step sEmptyTop evUserX = sEmptyTop ∧
    ((Cli.step sEmptyTop evUserX).cur_track.map Track.user_name) ≠ some (some "X") := by
  refine ⟨rfl, rfl, ?_⟩
  decide

/-- C4 amended: while the gate is true and a `Value` attribute is
present, a self-closing name event applies to the last branch of the
top sibling list when the stack is non-empty with non-empty top; to
`current_track` when the stack is empty; and is dropped (no target is
touched) when the stack is non-empty but its top list is empty.  Both
parsers behave identically here (`Cli` restricted to its two tag
names). -/
theorem name_event_target_selection (s : ParserState) (name v : String)
    (attrs : List (String × String))
    (hgate : s.in_name_block = true)
    (hval : lookupEntry "Value" attrs = some v)
    (hname : name = "EffectiveName" ∨ name = "UserName") :
    (∀ pre b rest, s.branch_stack = (pre ++ [b]) :: rest →
        Cli.step s (.empty name attrs) =
          { s with branch_stack := (pre ++ [Cli.applyName name v b]) :: rest } ∧
        Napi.step s (.empty name attrs) =
          { s with branch_stack := (pre ++ [Napi.applyName name v b]) :: rest }) ∧
    (∀ t, s.branch_stack = [] → s.cur_track = some t →
        Cli.step s (.empty name attrs) =
          { s with cur_track := some (Cli.applyNameTrack name v t) } ∧
        Napi.step s (.empty name attrs) =
          { s with cur_track := some (Napi.applyNameTrack name v t) }) ∧
    (∀ rest, s.branch_stack = [] :: rest →
        Cli.step s (.empty name attrs) = s ∧ Napi.step s (.empty name attrs) = s) := by
  obtain ⟨tr, cur, bs, gate⟩ := s
  dsimp only at hgate
  subst hgate
  refine ⟨?_, ?_, ?_⟩
  · intro pre b rest hstack
    dsimp only at hstack
    subst hstack
    constructor
    · show Cli.handleEmpty ⟨tr, cur, (pre ++ [b]) :: rest, true⟩ name attrs = _
      simp only [Cli.handleEmpty, if_pos hname, hval, modifyLast_concat]
    · show Napi.handleEmpty ⟨tr, cur, (pre ++ [b]) :: rest, true⟩ name attrs = _
      simp only [Napi.handleEmpty, hval, modifyLast_concat, if_pos rfl, if_true]
  · intro t hstack hcur
    dsimp only at hstack hcur
    subst hstack
    subst hcur
    constructor
    · show Cli.handleEmpty ⟨tr, some t, [], true⟩ name attrs = _
      simp only [Cli.handleEmpty, if_pos hname, hval]
    · show Napi.handleEmpty ⟨tr, some t, [], true⟩ name attrs = _
      simp only [Napi.handleEmpty, hval, if_pos rfl, if_true]
  · intro rest hstack
    dsimp only at hstack
    subst hstack
    constructor
    · show Cli.handleEmpty ⟨tr, cur, [] :: rest, true⟩ name attrs = _
      simp only [Cli.handleEmpty, if_pos hname, hval, modifyLast]
    · show Napi.handleEmpty ⟨tr, cur, [] :: rest, true⟩ name attrs = _
      simp only [Napi.handleEmpty, hval, modifyLast, if_pos rfl, if_true]

/-- C4 witness: the amended target selection applied at a concrete state
with an empty branch stack and an open track. -/
theorem name_event_target_selection_witness :
    Cli.step ⟨[], some tPiano, [], true⟩ (.empty "UserName" [("Value", "Lead")]) =
      { tracks := [], cur_track := some (Cli.applyNameTrack "UserName" "Lead" tPiano),
        branch_stack := [], in_name_block := true } ∧
    Napi.step ⟨[], some tPiano, [], true⟩ (.empty "UserName" [("Value", "Lead")]) =
      { tracks := [], cur_track := some (Napi.applyNameTrack "UserName" "Lead" tPiano),
        branch_stack := [], in_name_block := true } :=
  (name_event_target_selection ⟨[], some tPiano, [], true⟩ "UserName" "Lead"
    [("Value", "Lead")] rfl rfl (Or.inr rfl)).2.1 tPiano rfl rfl

/-- C5: closing a branch-group pops the top sibling list off the stack;
when the remaining stack is non-empty and its top list has a last
branch, the popped list becomes that branch's `branches` field; when the
stack is empty after popping, it becomes `current_track`'s `branches`
when a track is open, and is discarded otherwise; when the remaining
top list is empty (no attachment target there), the popped list is also
discarded.  `handleEnd` is the `Event::End` handler shared verbatim by
both parsers.  Additionally, the three-level-deep nested branch-group
stream parses (in both parsers) to the exactly-nested `nestedTrack`. -/
theorem branches_close_attach (s : ParserState) (deepest : List Branch) :
    (∀ pre b rest2, s.branch_stack = deepest :: (pre ++ [b]) :: rest2 →
        handleEnd s "Branches" =
          { s with branch_stack := (pre ++ [b.set_branches (some deepest)]) :: rest2 }) ∧
    (∀ t, s.branch_stack = [deepest] → s.cur_track = some t →
        handleEnd s "Branches" =
          { s with cur_track := some { t with branches := some deepest }, branch_stack := [] }) ∧
    (s.branch_stack = [deepest] → s.cur_track = none →
        handleEnd s "Branches" = { s with branch_stack := [] }) ∧
    (∀ rest2, s.branch_stack = deepest :: [] :: rest2 →
        handleEnd s "Branches" = { s with branch_stack := [] :: rest2 }) ∧
    Napi.get_project_from_als evsNested = { tracks := [nestedTrack] } ∧
    Cli.get_project_from_als evsNested = { tracks := [nestedTrack] } := by
  have hno : ¬("Branches" = "AudioTrack" ∨ "Branches" = "MidiTrack" ∨
      "Branches" = "ReturnTrack") := by decide
  obtain ⟨tr, cur, bs, gate⟩ := s
  refine ⟨?_, ?_, ?_, ?_, rfl, rfl⟩
  · intro pre b rest2 hstack
    dsimp only at hstack
    subst hstack
    show handleEnd ⟨tr, cur, deepest :: (pre ++ [b]) :: rest2, gate⟩ "Branches" = _
    simp only [handleEnd, if_neg hno, if_pos rfl, if_true, modifyLast_concat]
  · intro t hstack hcur
    dsimp only at hstack hcur
    subst hstack
    subst hcur
    show handleEnd ⟨tr, some t, [deepest], gate⟩ "Branches" = _
    simp only [handleEnd, if_neg hno, if_pos rfl, if_true]
  · intro hstack hcur
    dsimp only at hstack hcur
    subst hstack
    subst hcur
    show handleEnd ⟨tr, none, [deepest], gate⟩ "Branches" = _
    simp only [handleEnd, if_neg hno, if_pos rfl, if_true]
  · intro rest2 hstack
    dsimp only at hstack
    subst hstack
    show handleEnd ⟨tr, cur, deepest :: [] :: rest2, gate⟩ "Branches" = _
    simp only [handleEnd, if_neg hno, if_pos rfl, if_true, modifyLast]

/-- C5 witness: closing a group with a two-level stack attaches the
popped list to the last branch of the new top list. -/
theorem branches_close_attach_witness :
    handleEnd ⟨[], none, [[Branch.new "DrumBranch"], [Branch.new "InstrumentBranch"]], false⟩
        "Branches" =
      { tracks := [], cur_track := none,
        branch_stack :=
          [[(Branch.new "InstrumentBranch").set_branches (some [Branch.new "DrumBranch"])]],
        in_name_block := false } :=
  (branches_close_attach
      ⟨[], none, [[Branch.new "DrumBranch"], [Branch.new "InstrumentBranch"]], false⟩
      [Branch.new "DrumBranch"]).1 [] (Branch.new "InstrumentBranch") [] rfl

/-- C8: a track-kind open event with an identity attribute arriving
while a track is already open silently replaces the open track
(last-wins): the state keeps its accumulated track list unchanged and
`cur_track` becomes the brand-new track, so the discarded track never
reaches the project.  Concretely, in `evsNestedTracks` the `AudioTrack`
opened first never appears in either parser's output. -/
theorem track_open_replaces (s : ParserState) (name idv : String)
    (attrs : List (String × String)) (t : Track)
    (hname : name = "AudioTrack" ∨ name = "MidiTrack" ∨ name = "ReturnTrack")
    (hid : lookupEntry "Id" attrs = some idv)
    (hcur : s.cur_track = some t) :
    handleStart s name attrs = { s with cur_track := some (Track.new name idv) } ∧
    Napi.get_project_from_als evsNestedTracks = { tracks := [Track.new "MidiTrack" "2"] } ∧
    Cli.get_project_from_als evsNestedTracks = { tracks := [Track.new "MidiTrack" "2"] } := by
  refine ⟨?_, rfl, rfl⟩
  obtain ⟨tr, cur, bs, gate⟩ := s
  dsimp only at hcur
  subst hcur
  show handleStart ⟨tr, some t, bs, gate⟩ name attrs = _
  simp only [handleStart, if_pos hname, hid]

/-- C8 witness: a `MidiTrack` open replaces the already-open `tPiano`. -/
theorem track_open_replaces_witness :
    handleStart ⟨[], some tPiano, [], false⟩ "MidiTrack" [("Id", "2")] =
      { tracks := [], cur_track := some (Track.new "MidiTrack" "2"),
        branch_stack := [], in_name_block := false } :=
  (track_open_replaces ⟨[], some tPiano, [], false⟩ "MidiTrack" "2" [("Id", "2")] tPiano
    (Or.inr (Or.inl rfl)) rfl rfl).1

/-- C9: in the napi parser, while the gate is true, a self-closing
element with ANY tag name other than `EffectiveName` that carries a
`Value` attribute sets the user name of the current target (the last
branch of the non-empty top sibling list, else the open track); the tag
name is never compared against `UserName`. -/
theorem napi_any_value_tag_sets_user_name (s : ParserState) (name v : String)
    (attrs : List (String × String))
    (hgate : s.in_name_block = true)
    (hname : name ≠ "EffectiveName")
    (hval : lookupEntry "Value" attrs = some v) :
    (∀ t, s.branch_stack = [] → s.cur_track = some t →
        Napi.step s (.empty name attrs) = { s with cur_track := some (t.set_user_name v) }) ∧
    (∀ pre b rest, s.branch_stack = (pre ++ [b]) :: rest →
        Napi.step s (.empty name attrs) =
          { s with branch_stack := (pre ++ [b.set_user_name v]) :: rest }) := by
  obtain ⟨tr, cur, bs, gate⟩ := s
  dsimp only at hgate
  subst hgate
  constructor
  · intro t hstack hcur
    dsimp only at hstack hcur
    subst hstack
    subst hcur
    show Napi.handleEmpty ⟨tr, some t, [], true⟩ name attrs = _
    simp only [Napi.handleEmpty, hval, if_pos rfl, if_true, Napi.applyNameTrack, if_neg hname]
  · intro pre b rest hstack
    dsimp only at hstack
    subst hstack
    show Napi.handleEmpty ⟨tr, cur, (pre ++ [b]) :: rest, true⟩ name attrs = _
    simp only [Napi.handleEmpty, hval, if_pos rfl, if_true, Napi.applyName, if_neg hname,
      modifyLast_concat]

/-- C9 witness: a self-closing `Volume` tag (a name that is neither
`EffectiveName` nor `UserName`) sets the open track's user name. -/
theorem napi_any_value_tag_sets_user_name_witness :
    Napi.step ⟨[], some tPiano, [], true⟩ (.empty "Volume" [("Value", "Loud")]) =
      { tracks := [], cur_track := some (tPiano.set_user_name "Loud"),
        branch_stack := [], in_name_block := true } :=
  (napi_any_value_tag_sets_user_name ⟨[], some tPiano, [], true⟩ "Volume" "Loud"
    [("Value", "Loud")] rfl (by decide) rfl).1 tPiano rfl rfl

/-- C10: on `evsEmptyUser` (a `UserName` tag with an empty `Value`
inside the `Name` block) the napi parser records `user_name = Some ""`
while the CLI parser leaves it `None`; the two results are unequal at
the `user_name` field, and the napi content diff of the two tracks
emits a rename message from `None` to the empty string. -/
theorem empty_user_name_divergence :
    (Napi.get_project_from_als evsEmptyUser).tracks =
      [⟨"MidiTrack", "7", "Piano", some "", none⟩] ∧
    (Cli.get_project_from_als evsEmptyUser).tracks =
      [⟨"MidiTrack", "7", "Piano", none, none⟩] ∧
    Napi.Track.diff_content ⟨"MidiTrack", "7", "Piano", some "", none⟩
        ⟨"MidiTrack", "7", "Piano", none, none⟩ =
      ["Track Piano: Renamed from \x27None\x27 to \x27\x27"] ∧
    (some "" : Option String) ≠ none :=
  ⟨rfl, rfl, rfl, by decide⟩

/-- C6: for a track id present in both projects, the content diff emits
at most one of the two top-level name messages, rename taking priority:
a user-name difference produces exactly the rename message (absent names
rendered as `None`) and suppresses the instrument-swap message; only
with equal user names and differing effective names is the swap message
produced; with both equal no name message is produced.  Both differs
follow this priority; in the napi differ these name messages are then
followed by the independent branch-list comparison, in the CLI differ
they are the whole content diff.  The spec scenario (old `tPiano`, new
`tLead`) yields exactly the one rename message. -/
theorem rename_priority (t o : Track) :
    (t.user_name ≠ o.user_name →
        Napi.name_messages t o =
          ["Track " ++ t.effective_name ++ ": Renamed from \x27" ++ o.user_name.getD "None"
            ++ "\x27 to \x27" ++ t.user_name.getD "None" ++ "\x27"] ∧
        Cli.name_messages t o =
          ["Track " ++ t.id ++ ": User name changed from \x27" ++ o.user_name.getD "None"
            ++ "\x27 to \x27" ++ t.user_name.getD "None" ++ "\x27"]) ∧
    (t.user_name = o.user_name → t.effective_name ≠ o.effective_name →
        Napi.name_messages t o =
          ["Track " ++ t.id ++ ": Swapped instrument to " ++ t.effective_name] ∧
        Cli.name_messages t o =
          ["Track " ++ t.id ++ ": Changed instrument " ++ o.effective_name ++ " to "
            ++ t.effective_name]) ∧
    (t.user_name = o.user_name → t.effective_name = o.effective_name →
        Napi.name_messages t o = [] ∧ Cli.name_messages t o = []) ∧
    (Napi.Track.diff_content t o =
        Napi.name_messages t o ++
          Napi.diff_branch_lists t.branches o.branches t.effective_name) ∧
    (Cli.Track.diff_content t o = Cli.name_messages t o) ∧
    Napi.Project.diff ⟨[tLead]⟩ ⟨[tPiano]⟩ =
      ["Track Piano: Renamed from \x27None\x27 to \x27Lead\x27"] ∧
    Cli.Project.diff ⟨[tLead]⟩ ⟨[tPiano]⟩ =
      ["Track 1: User name changed from \x27None\x27 to \x27Lead\x27"] := by
  refine ⟨?_, ?_, ?_, rfl, rfl, rfl, rfl⟩
  · intro h
    constructor
    · rw [Napi.name_messages, if_pos h]
    · rw [Cli.name_messages, if_pos h]
  · intro h1 h2
    constructor
    · rw [Napi.name_messages, if_neg (fun hh => hh h1), if_pos h2]
    · rw [Cli.name_messages, if_neg (fun hh => hh h1), if_pos h2]
  · intro h1 h2
    constructor
    · rw [Napi.name_messages, if_neg (fun hh => hh h1), if_neg (fun hh => hh h2)]
    · rw [Cli.name_messages, if_neg (fun hh => hh h1), if_neg (fun hh => hh h2)]

/-- C6 witness: the priority rules applied at the spec scenario tracks. -/
theorem rename_priority_witness :
    Napi.name_messages tLead tPiano = ["Track Piano: Renamed from \x27None\x27 to \x27Lead\x27"] ∧
    Cli.name_messages tLead tPiano =
      ["Track 1: User name changed from \x27None\x27 to \x27Lead\x27"] :=
  (rename_priority tLead tPiano).1 (by decide)

/-- C7 counterexample: at the spec scenario (old track 2 without
branches, new track 2 with one branch, names equal) the CLI differ
emits NO message at all — in particular no `added device chain`
message — although the branch lists differ in shape; its branch
comparison is commented out in `main.rs`. -/
theorem cli_branch_diff_missing_counterexample :
    Cli.Project.diff ⟨[tBr]⟩ ⟨[tNoBr]⟩ = [] ∧ tBr.branches ≠ tNoBr.branches := by
  refine ⟨rfl, ?_⟩
  simp [tBr, tNoBr]

/-- C7 amended: in the napi differ the two optional branch lists are
compared independently of the name-field messages and contribute
exactly one message by shape (modified when both present and unequal,
added when only new, removed when only old, nothing when both absent or
equal); the CLI differ performs no branch comparison at all — its
content diff is insensitive to the `branches` fields.  The spec
scenario yields exactly the one `Added new Rack devices` message in the
napi differ. -/
theorem branch_diff_independent_shape :
    (∀ (l1 l2 : List Branch) (pn : String), l1 ≠ l2 →
        Napi.diff_branch_lists (some l1) (some l2) pn =
          ["Track " ++ pn ++ ": Modified internal Rack devices"]) ∧
    (∀ (l : List Branch) (pn : String),
        Napi.diff_branch_lists (some l) (some l) pn = [] ∧
        Napi.diff_branch_lists (some l) none pn =
          ["Track " ++ pn ++ ": Added new Rack devices"] ∧
        Napi.diff_branch_lists none (some l) pn =
          ["Track " ++ pn ++ ": Removed all Rack devices"]) ∧
    (∀ pn : String, Napi.diff_branch_lists none none pn = []) ∧
    (∀ t o : Track, Napi.Track.diff_content t o =
        Napi.name_messages t o ++
          Napi.diff_branch_lists t.branches o.branches t.effective_name) ∧
    (∀ (t o : Track) (bn bo : Option (List Branch)),
        Cli.Track.diff_content { t with branches := bn } { o with branches := bo } =
          Cli.Track.diff_content t o) ∧
    Napi.Project.diff ⟨[tBr]⟩ ⟨[tNoBr]⟩ = ["Track Piano: Added new Rack devices"] := by
  refine ⟨?_, ?_, fun pn => rfl, fun t o => rfl, fun t o bn bo => rfl, rfl⟩
  · intro l1 l2 pn h
    have hb : lbeq l1 l2 = false := by
      by_cases hb2 : lbeq l1 l2
      · exact absurd ((lbeq_iff l1 l2).mp hb2) h
      · simpa using hb2
    simp [Napi.diff_branch_lists, hb]
  · intro l pn
    refine ⟨?_, rfl, rfl⟩
    simp [Napi.diff_branch_lists, lbeq_refl l]

/-- C7 witness: two unequal present branch lists yield exactly the
coarse modified message. -/
theorem branch_diff_independent_shape_witness :
    Napi.diff_branch_lists (some [Branch.new "DrumBranch"]) (some []) "Piano" =
      ["Track Piano: Modified internal Rack devices"] :=
  branch_diff_independent_shape.1 [Branch.new "DrumBranch"] [] "Piano" (by simp)
